import Mathlib

/-!
Shallow embedding of the `ws2812_nop_imxrt1062` driver (`src/lib.rs`).

The driver bit-bangs the WS2812 single-wire protocol on one GPIO pin.
We model the observable behaviour of a run as a trace of pin-level
actions: setting the line high, setting it low, and busy-waiting for
`magic_number` loop iterations.  Pin sets in the source return a
`Result` that is discarded with `.ok()`; we model the pin as a state
(current level plus a count of attempted set operations) together with
a failure oracle `f : Nat → Bool` saying whether the n-th attempted
set operation takes effect.  Control flow in the source never inspects
the result of a pin set, and the embedding mirrors that.
-/

/-- One observable action of the driver: an attempted `set_high`, an
attempted `set_low`, or one call of `wait` (a busy loop of `n` iterations,
where `n` is the driver's current `magic_number`). -/
inductive Act where
  | setHigh : Act
  | setLow : Act
  | wait : Nat → Act
deriving DecidableEq, Repr

/-- The electrical state of the GPIO line: its current level
(`true` = high) and how many set operations have been attempted on it. -/
structure PinState where
  level : Bool
  ops : Nat
deriving DecidableEq, Repr

/-- An attempted set operation: the n-th set takes effect exactly when the
failure oracle `f` says so; a failed set leaves the level unchanged.  The
returned `Result` is discarded by the source (`.ok()`), so nothing else
depends on `f`. -/
def setPin (f : Nat → Bool) (target : Bool) (p : PinState) : PinState :=
  { level := if f p.ops then target else p.level, ops := p.ops + 1 }

/-- `pub struct Ws2812<PIN> { pub pin: PIN, magic_number: u8 }`. -/
structure Ws2812 where
  pin : PinState
  magic_number : Nat
deriving DecidableEq, Repr

/-- `Ws2812::new(mut pin)`: forces the pin low (`pin.set_low().ok()`) and
initializes `magic_number` to 50. -/
def new (f : Nat → Bool) (pin : PinState) : Ws2812 :=
  { pin := setPin f false pin, magic_number := 50 }

/-- `set_magic_number(&mut self, num: u8)`. -/
def set_magic_number (d : Ws2812) (num : Nat) : Ws2812 :=
  { d with magic_number := num }

/-- `wait(&self)`: a busy loop of `magic_number` iterations of four `nop`s.
It touches no pin state; its trace is a single delay unit whose wall-clock
duration is proportional to `magic_number`. -/
def wait (d : Ws2812) : List Act :=
  [Act.wait d.magic_number]

/-- `write_bit(&mut self, bit: bool)`: for a 1-bit `set_high`, `wait`,
`wait`, `set_low`, `wait`; for a 0-bit `set_high`, `wait`, `set_low`,
`wait`, `wait`.  Returns the emitted trace and the updated driver. -/
def write_bit (f : Nat → Bool) (bit : Bool) (d : Ws2812) : List Act × Ws2812 :=
  if bit then
    ([Act.setHigh] ++ wait d ++ wait d ++ [Act.setLow] ++ wait d,
     { d with pin := setPin f false (setPin f true d.pin) })
  else
    ([Act.setHigh] ++ wait d ++ [Act.setLow] ++ wait d ++ wait d,
     { d with pin := setPin f false (setPin f true d.pin) })

/-- The loop body of `write_byte`, with explicit fuel for the `for _ in 0..8`
loop: each iteration writes the current top bit (`data & 0x80 != 0`) and
left-shifts `data` (a `u8`, hence the reduction mod 256). -/
def write_byteAux (f : Nat → Bool) : Nat → Nat → Ws2812 → List Act × Ws2812
  | 0, _, d => ([], d)
  | n + 1, data, d =>
    let r₁ := write_bit f ((data &&& 0x80) != 0) d
    let r₂ := write_byteAux f n ((data <<< 1) % 256) r₁.2
    (r₁.1 ++ r₂.1, r₂.2)

/-- `write_byte(&mut self, mut data: u8)`: eight `write_bit` calls,
most significant bit first. -/
def write_byte (f : Nat → Bool) (data : Nat) (d : Ws2812) : List Act × Ws2812 :=
  write_byteAux f 8 data d

/-- `RGB8`: one 8-bit value per channel. -/
structure RGB8 where
  r : Nat
  g : Nat
  b : Nat
deriving DecidableEq, Repr

/-- The iterator loop of `write`: for each color, `write_byte` of the
green, red and blue channels, in that order. -/
def writeAux (f : Nat → Bool) : List RGB8 → Ws2812 → List Act × Ws2812
  | [], d => ([], d)
  | c :: rest, d =>
    let r₁ := write_byte f c.g d
    let r₂ := write_byte f c.r r₁.2
    let r₃ := write_byte f c.b r₂.2
    let r₄ := writeAux f rest r₃.2
    (r₁.1 ++ r₂.1 ++ r₃.1 ++ r₄.1, r₄.2)

/-- `SmartLedsWrite::write`: the per-color loop, then 20 `wait` calls
(the latch / reset hold), then `Ok(())`.  Returns the emitted trace, the
final driver state, and the `Result`. -/
def write (f : Nat → Bool) (colors : List RGB8) (d : Ws2812) :
    List Act × Ws2812 × Except Unit Unit :=
  let r := writeAux f colors d
  (r.1 ++ List.replicate 20 (Act.wait r.2.magic_number), r.2, Except.ok ())

/-!
Pure trace characterizations.  The source never branches on the result of
a pin set, so the emitted trace is a pure function of the driver's
`magic_number` and of the data written; we prove that below and use these
pure forms to state the protocol-level claims.
-/

/-- The tail of a single bit-pulse trace, after the leading `set_high`. -/
def bitTail (m : Nat) (b : Bool) : List Act :=
  if b then [Act.wait m, Act.wait m, Act.setLow, Act.wait m]
  else [Act.wait m, Act.setLow, Act.wait m, Act.wait m]

/-- The trace of one bit-pulse. -/
def bitTrace (m : Nat) (b : Bool) : List Act :=
  Act.setHigh :: bitTail m b

/-- The trace of the first `n` most-significant bits of a byte. -/
def byteTraceAux (m : Nat) : Nat → Nat → List Act
  | 0, _ => []
  | n + 1, data =>
    bitTrace m ((data &&& 0x80) != 0) ++ byteTraceAux m n ((data <<< 1) % 256)

/-- The trace of one full byte: its 8 bits, most significant first. -/
def byteTrace (m : Nat) (data : Nat) : List Act :=
  byteTraceAux m 8 data

/-- The per-color section of a frame: each color's channel bytes in the
order green, red, blue. -/
def frameTrace (m : Nat) (colors : List RGB8) : List Act :=
  colors.flatMap fun c => byteTrace m c.g ++ byteTrace m c.r ++ byteTrace m c.b

/-- The latch / reset hold: 20 consecutive delay units with no pin set. -/
def latchTrace (m : Nat) : List Act :=
  List.replicate 20 (Act.wait m)

theorem write_bit_trace (f : Nat → Bool) (b : Bool) (d : Ws2812) :
    (write_bit f b d).1 = bitTrace d.magic_number b := by
  cases b <;> simp [write_bit, wait, bitTrace, bitTail]

theorem write_bit_magic (f : Nat → Bool) (b : Bool) (d : Ws2812) :
    (write_bit f b d).2.magic_number = d.magic_number := by
  cases b <;> simp [write_bit]

theorem write_byteAux_magic (f : Nat → Bool) (n data : Nat) (d : Ws2812) :
    (write_byteAux f n data d).2.magic_number = d.magic_number := by
  induction n generalizing data d with
  | zero => rfl
  | succ n ih => simp [write_byteAux, ih, write_bit_magic]

theorem write_byteAux_trace (f : Nat → Bool) (n data : Nat) (d : Ws2812) :
    (write_byteAux f n data d).1 = byteTraceAux d.magic_number n data := by
  induction n generalizing data d with
  | zero => rfl
  | succ n ih =>
    simp [write_byteAux, byteTraceAux, write_bit_trace, ih, write_bit_magic]

theorem write_byte_trace (f : Nat → Bool) (data : Nat) (d : Ws2812) :
    (write_byte f data d).1 = byteTrace d.magic_number data :=
  write_byteAux_trace f 8 data d

theorem write_byte_magic (f : Nat → Bool) (data : Nat) (d : Ws2812) :
    (write_byte f data d).2.magic_number = d.magic_number :=
  write_byteAux_magic f 8 data d

theorem writeAux_magic (f : Nat → Bool) (colors : List RGB8) (d : Ws2812) :
    (writeAux f colors d).2.magic_number = d.magic_number := by
  induction colors generalizing d with
  | nil => rfl
  | cons c rest ih => simp [writeAux, ih, write_byte_magic]

theorem writeAux_trace (f : Nat → Bool) (colors : List RGB8) (d : Ws2812) :
    (writeAux f colors d).1 = frameTrace d.magic_number colors := by
  induction colors generalizing d with
  | nil => rfl
  | cons c rest ih =>
    simp [writeAux, frameTrace, write_byte_trace, ih, write_byte_magic]

theorem write_trace (f : Nat → Bool) (colors : List RGB8) (d : Ws2812) :
    (write f colors d).1 = frameTrace d.magic_number colors ++ latchTrace d.magic_number := by
  simp [write, latchTrace, writeAux_trace, writeAux_magic]

/-!
Pulse decoding.  A bit-pulse is a `set_high` followed by everything up to
the next `set_high`; its value is read back from its durations as
high-duration > low-duration ⇒ 1, else 0 (the classification rule of the
specification).  `decodeAux` scans a trace pulse by pulse, accumulating
the wait durations spent high and low within the current pulse.
-/

/-- Scan the remainder of a trace inside a pulse: `hi` and `lo` are the
wait durations accumulated so far in the high resp. low phase, `phase`
is `true` while the line is high.  A new `set_high` (or the end of the
trace) closes the current pulse and classifies it. -/
def decodeAux : List Act → Nat → Nat → Bool → List Bool
  | [], hi, lo, _ => [decide (lo < hi)]
  | Act.setHigh :: rest, hi, lo, _ => decide (lo < hi) :: decodeAux rest 0 0 true
  | Act.setLow :: rest, hi, lo, _ => decodeAux rest hi lo false
  | Act.wait n :: rest, hi, lo, phase =>
    if phase then decodeAux rest (hi + n) lo phase
    else decodeAux rest hi (lo + n) phase

/-- Decode a trace into the list of bits its pulses encode. -/
def decode : List Act → List Bool
  | [] => []
  | Act.setHigh :: rest => decodeAux rest 0 0 true
  | Act.setLow :: rest => decode rest
  | Act.wait _ :: rest => decode rest

/-- The most-significant-first bit extraction that `write_byte` performs:
test the top bit, shift left (mod 256), `n` times. -/
def bitsMSBAux : Nat → Nat → List Bool
  | 0, _ => []
  | n + 1, data => ((data &&& 0x80) != 0) :: bitsMSBAux n ((data <<< 1) % 256)

/-- Reassemble a most-significant-first bit list into a number. -/
def fromBitsMSB (bs : List Bool) : Nat :=
  bs.foldl (fun acc b => 2 * acc + b.toNat) 0

theorem decodeAux_bitTail_last (m : Nat) (b : Bool) (hm : 0 < m) :
    decodeAux (bitTail m b) 0 0 true = [b] := by
  cases b with
  | true =>
    simp only [bitTail, if_pos, decodeAux]
    simp [hm]
  | false =>
    simp only [bitTail, decodeAux]
    simp [decide_eq_false (show ¬ (0 + m + m < 0 + m) by omega)]

theorem decodeAux_bitTail_cons (m : Nat) (b : Bool) (rest : List Act) (hm : 0 < m) :
    decodeAux (bitTail m b ++ Act.setHigh :: rest) 0 0 true
      = b :: decodeAux rest 0 0 true := by
  cases b with
  | true =>
    simp only [bitTail, if_pos, List.cons_append, List.nil_append, decodeAux]
    simp [hm]
  | false =>
    simp only [bitTail, List.cons_append, List.nil_append, decodeAux]
    simp [decide_eq_false (show ¬ (0 + m + m < 0 + m) by omega)]

theorem decode_byteTraceAux (m : Nat) (hm : 0 < m) :
    ∀ n data, decode (byteTraceAux m (n + 1) data) = bitsMSBAux (n + 1) data := by
  intro n
  induction n with
  | zero =>
    intro data
    have h1 : byteTraceAux m 1 data
        = Act.setHigh :: (bitTail m ((data &&& 0x80) != 0)
            ++ byteTraceAux m 0 ((data <<< 1) % 256)) := rfl
    rw [h1]
    simp only [decode, byteTraceAux, List.append_nil]
    rw [decodeAux_bitTail_last m _ hm]
    rfl
  | succ n ih =>
    intro data
    rw [show byteTraceAux m (n + 1 + 1) data
        = Act.setHigh :: (bitTail m ((data &&& 0x80) != 0)
            ++ byteTraceAux m (n + 1) ((data <<< 1) % 256)) from rfl]
    simp only [decode]
    have h2 : byteTraceAux m (n + 1) ((data <<< 1) % 256)
        = Act.setHigh :: (bitTail m ((((data <<< 1) % 256) &&& 0x80) != 0)
            ++ byteTraceAux m n ((((data <<< 1) % 256) <<< 1) % 256)) := rfl
    rw [h2, decodeAux_bitTail_cons m _ _ hm]
    have h3 : decodeAux (bitTail m ((((data <<< 1) % 256) &&& 0x80) != 0)
            ++ byteTraceAux m n ((((data <<< 1) % 256) <<< 1) % 256)) 0 0 true
        = decode (byteTraceAux m (n + 1) ((data <<< 1) % 256)) := by
      rw [h2]
      simp only [decode]
    rw [h3, ih]
    rfl

theorem bitsMSBAux_length : ∀ n data, (bitsMSBAux n data).length = n := by
  intro n
  induction n with
  | zero => intro data; rfl
  | succ n ih => intro data; simp [bitsMSBAux, ih]

set_option maxRecDepth 4000 in
theorem fromBitsMSB_bitsMSBAux : ∀ data < 256, fromBitsMSB (bitsMSBAux 8 data) = data := by
  decide

/-!
Pin-level facts (for an all-succeeding pin) and pulse counting.
-/

theorem write_bit_level (f : Nat → Bool) (b : Bool) (d : Ws2812) (hf : ∀ n, f n = true) :
    (write_bit f b d).2.pin.level = false := by
  cases b <;> simp [write_bit, setPin, hf]

theorem write_byteAux_level (f : Nat → Bool) (n data : Nat) (d : Ws2812)
    (hf : ∀ n, f n = true) (hd : d.pin.level = false) :
    (write_byteAux f n data d).2.pin.level = false := by
  induction n generalizing data d with
  | zero => exact hd
  | succ n ih =>
    simp only [write_byteAux]
    exact ih _ _ (write_bit_level f _ d hf)

theorem write_byte_level (f : Nat → Bool) (data : Nat) (d : Ws2812)
    (hf : ∀ n, f n = true) (hd : d.pin.level = false) :
    (write_byte f data d).2.pin.level = false :=
  write_byteAux_level f 8 data d hf hd

theorem writeAux_level (f : Nat → Bool) (colors : List RGB8) (d : Ws2812)
    (hf : ∀ n, f n = true) (hd : d.pin.level = false) :
    (writeAux f colors d).2.pin.level = false := by
  induction colors generalizing d with
  | nil => exact hd
  | cons c rest ih =>
    simp only [writeAux]
    exact ih _ (write_byte_level f _ _ hf (write_byte_level f _ _ hf (write_byte_level f _ _ hf hd)))

/-- Recognize the start of a bit-pulse. -/
def isHigh : Act → Bool
  | Act.setHigh => true
  | _ => false

theorem countP_bitTrace (m : Nat) (b : Bool) : (bitTrace m b).countP isHigh = 1 := by
  cases b <;> simp [bitTrace, bitTail, List.countP_cons, isHigh]

theorem countP_byteTraceAux (m : Nat) :
    ∀ n data, (byteTraceAux m n data).countP isHigh = n := by
  intro n
  induction n with
  | zero => intro data; rfl
  | succ n ih =>
    intro data
    simp [byteTraceAux, List.countP_append, countP_bitTrace, ih]
    omega

theorem countP_frameTrace (m : Nat) (colors : List RGB8) :
    (frameTrace m colors).countP isHigh = 24 * colors.length := by
  induction colors with
  | nil => rfl
  | cons c rest ih =>
    simp only [frameTrace, List.flatMap_cons, List.countP_append, byteTrace,
      countP_byteTraceAux, List.length_cons] at ih ⊢
    omega

theorem countP_latchTrace (m : Nat) : (latchTrace m).countP isHigh = 0 := by
  simp [latchTrace, List.countP_eq_zero, isHigh]

/-- Count the delay units spent with the line high resp. low, scanning a
trace with the given initial line level. -/
def waitCounts : List Act → Bool → Nat × Nat
  | [], _ => (0, 0)
  | Act.setHigh :: r, _ => waitCounts r true
  | Act.setLow :: r, _ => waitCounts r false
  | Act.wait _ :: r, lvl =>
    let p := waitCounts r lvl
    if lvl then (p.1 + 1, p.2) else (p.1, p.2 + 1)

/-- The shape of an action with the calibration value erased: which pin
transition it is, or that it is one delay unit (of whatever duration). -/
inductive ActShape where
  | high : ActShape
  | low : ActShape
  | delay : ActShape
deriving DecidableEq, Repr

/-- Forget the duration of a delay unit. -/
def Act.shape : Act → ActShape
  | Act.setHigh => ActShape.high
  | Act.setLow => ActShape.low
  | Act.wait _ => ActShape.delay

theorem bitTrace_shape (m m' : Nat) (b : Bool) :
    (bitTrace m b).map Act.shape = (bitTrace m' b).map Act.shape := by
  cases b <;> rfl

theorem byteTraceAux_shape (m m' : Nat) :
    ∀ n data, (byteTraceAux m n data).map Act.shape
      = (byteTraceAux m' n data).map Act.shape := by
  intro n
  induction n with
  | zero => intro data; rfl
  | succ n ih =>
    intro data
    simp only [byteTraceAux, List.map_append, ih, bitTrace_shape m m']

theorem frameTrace_shape (m m' : Nat) (colors : List RGB8) :
    (frameTrace m colors).map Act.shape = (frameTrace m' colors).map Act.shape := by
  induction colors with
  | nil => rfl
  | cons c rest ih =>
    simp only [frameTrace, List.flatMap_cons, List.map_append, byteTrace] at ih ⊢
    simp only [byteTraceAux_shape m m', ih]

theorem latchTrace_shape (m m' : Nat) :
    (latchTrace m).map Act.shape = (latchTrace m').map Act.shape := by
  simp [latchTrace, List.map_replicate, Act.shape]

/-- Modelled from the module documentation's calibration formula
(`src/lib.rs` line 39): `loops = target_ns / ((1000 / clock_mhz) * cycles_per_loop)`,
truncated to an integer (the formula is only ever used with positive
arguments, where truncation is the floor). -/
def magicFormula (target_ns clock_mhz cycles_per_loop : ℚ) : ℤ :=
  ⌊target_ns / (1000 / clock_mhz * cycles_per_loop)⌋

theorem magicFormula_eq_div (t k c : ℚ) :
    magicFormula t c k = ⌊t * c / (1000 * k)⌋ := by
  rw [magicFormula, div_mul_eq_mul_div, div_div_eq_mul_div]

/-!
The claims.
-/

/-- Claim C1: for every finite sequence of colors (including the empty
one), `write` emits, for each color in order, its channel bytes in the
order green, red, blue — 24 bit-pulses per color with no gaps other than
the per-bit delays — and then the latch/reset low-hold; for the empty
sequence it emits the latch and nothing else. -/
theorem write_frame_structure (f : Nat → Bool) (colors : List RGB8) (d : Ws2812) :
    (write f colors d).1 = frameTrace d.magic_number colors ++ latchTrace d.magic_number ∧
    ((write f colors d).1).countP isHigh = 24 * colors.length ∧
    (write f [] d).1 = latchTrace d.magic_number := by
  refine ⟨write_trace f colors d, ?_, ?_⟩
  · rw [write_trace, List.countP_append, countP_frameTrace, countP_latchTrace]
    omega
  · rw [write_trace]
    simp [frameTrace]

/-- Claim C2: for every byte `data` (and any positive magic number),
`write_byte` emits exactly 8 bit-pulses, most significant bit first;
classifying each pulse by its durations (high > low means 1, else 0)
reconstructs `data` exactly. -/
theorem write_byte_pulse_decode (f : Nat → Bool) (data : Nat) (d : Ws2812)
    (hm : 0 < d.magic_number) (hdata : data < 256) :
    (decode (write_byte f data d).1).length = 8 ∧
    decode (write_byte f data d).1 = bitsMSBAux 8 data ∧
    fromBitsMSB (decode (write_byte f data d).1) = data := by
  have h : decode (write_byte f data d).1 = bitsMSBAux 8 data := by
    rw [write_byte_trace]
    exact decode_byteTraceAux d.magic_number hm 7 data
  refine ⟨?_, h, ?_⟩
  · rw [h]; exact bitsMSBAux_length 8 data
  · rw [h]; exact fromBitsMSB_bitsMSBAux data hdata

/-- Witness for `write_byte_pulse_decode`: byte `0xA5`, magic number 50. -/
theorem write_byte_pulse_decode_witness :
    (decode (write_byte (fun _ => true) 0xA5
        { pin := { level := false, ops := 0 }, magic_number := 50 }).1).length = 8 ∧
    decode (write_byte (fun _ => true) 0xA5
        { pin := { level := false, ops := 0 }, magic_number := 50 }).1 = bitsMSBAux 8 0xA5 ∧
    fromBitsMSB (decode (write_byte (fun _ => true) 0xA5
        { pin := { level := false, ops := 0 }, magic_number := 50 }).1) = 0xA5 :=
  write_byte_pulse_decode (fun _ => true) 0xA5
    { pin := { level := false, ops := 0 }, magic_number := 50 } (by decide) (by decide)

/-- Claim C3: a 1-bit drives the pin through
`[set high, wait, wait, set low, wait]` and a 0-bit through
`[set high, wait, set low, wait, wait]`: a 1-bit spends two delay units
high and one low, a 0-bit one high and two low, both using three delay
units in total. -/
theorem write_bit_phase_patterns (f : Nat → Bool) (d : Ws2812) :
    (write_bit f true d).1
      = [Act.setHigh, Act.wait d.magic_number, Act.wait d.magic_number,
         Act.setLow, Act.wait d.magic_number] ∧
    (write_bit f false d).1
      = [Act.setHigh, Act.wait d.magic_number, Act.setLow,
         Act.wait d.magic_number, Act.wait d.magic_number] ∧
    waitCounts (write_bit f true d).1 false = (2, 1) ∧
    waitCounts (write_bit f false d).1 false = (1, 2) := by
  refine ⟨by simp [write_bit, wait], by simp [write_bit, wait], ?_, ?_⟩ <;>
    simp [write_bit, wait, waitCounts]

/-- Claim C4: outside an active bit-pulse the pin rests low: `new` forces
the pin low, every `write_bit` ends with the pin low, and every `write`
call starting from a low pin terminates with the pin low (for a pin whose
set operations succeed). -/
theorem pin_rests_low (f : Nat → Bool) (pin : PinState) (b : Bool) (colors : List RGB8)
    (d e : Ws2812) (hf : ∀ n, f n = true) (he : e.pin.level = false) :
    (new f pin).pin.level = false ∧
    (write_bit f b d).2.pin.level = false ∧
    (write f colors e).2.1.pin.level = false := by
  refine ⟨?_, write_bit_level f b d hf, ?_⟩
  · simp [new, setPin, hf]
  · exact writeAux_level f colors e hf he

/-- Witness for `pin_rests_low`: an initially-high pin handed to `new`, a
1-bit written from a high pin, and a one-color `write` from a low pin. -/
theorem pin_rests_low_witness :
    (new (fun _ => true) { level := true, ops := 0 }).pin.level = false ∧
    (write_bit (fun _ => true) true
        { pin := { level := true, ops := 5 }, magic_number := 7 }).2.pin.level = false ∧
    (write (fun _ => true) [{ r := 0x10, g := 0x00, b := 0x00 }]
        { pin := { level := false, ops := 0 }, magic_number := 50 }).2.1.pin.level = false :=
  pin_rests_low (fun _ => true) { level := true, ops := 0 } true
    [{ r := 0x10, g := 0x00, b := 0x00 }]
    { pin := { level := true, ops := 5 }, magic_number := 7 }
    { pin := { level := false, ops := 0 }, magic_number := 50 }
    (fun _ => rfl) rfl

/-- Claim C5: `write` returns `Ok(())` unconditionally, for every input
sequence and every behaviour of the underlying pin; pin-set failures are
discarded and never influence the emitted trace. -/
theorem write_always_ok (f g : Nat → Bool) (colors : List RGB8) (d : Ws2812) :
    (write f colors d).2.2 = Except.ok () ∧
    (write f colors d).1 = (write g colors d).1 :=
  ⟨rfl, by rw [write_trace, write_trace]⟩

/-- Claim C6: the sequence of pin-level transitions and per-phase delay
unit counts produced by `write` is independent of the magic number — two
runs on the same colors with different magic numbers have identical
action sequences up to the duration of each delay unit — and
`set_magic_number` changes the calibration value in place without
touching the pin. -/
theorem write_shape_independent_of_magic (f : Nat → Bool) (colors : List RGB8)
    (d : Ws2812) (m₁ m₂ num : Nat) :
    ((write f colors { d with magic_number := m₁ }).1).map Act.shape
      = ((write f colors { d with magic_number := m₂ }).1).map Act.shape ∧
    set_magic_number d num = { d with magic_number := num } := by
  constructor
  · rw [write_trace, write_trace]
    simp only [List.map_append]
    rw [frameTrace_shape m₁ m₂, latchTrace_shape m₁ m₂]
  · rfl

/-- Counterexample to claim C7: the exposed constructor takes no timing
configuration at all.  `new` is exactly the function of the pin capability
(with its failure oracle) that forces the pin low and installs the fixed
default magic number 50 — there is no magic-number or clock-speed
parameter for a caller to supply. -/
theorem new_takes_no_timing_configuration :
    new = fun f pin => { pin := setPin f false pin, magic_number := 50 } :=
  rfl

/-- Amended claim C7: the constructor takes the pin capability only; the
timing configuration starts at the fixed default 50 and is supplied
afterwards through the runtime setter `set_magic_number`. -/
theorem new_pin_only_default_magic (f : Nat → Bool) (pin : PinState) (num : Nat) :
    (new f pin).magic_number = 50 ∧
    (set_magic_number (new f pin) num).magic_number = num :=
  ⟨rfl, rfl⟩

/-- Counterexample to claim C8: under the documented formula
`loops = target_ns / ((1000 / clock_mhz) * cycles_per_loop)`, raising the
clock from 600 MHz to 720 MHz at the documented target of 333 ns and
4 cycles per loop makes the loop count grow (49 to 59), so the count is
not monotonically non-increasing in the clock speed. -/
theorem magicFormula_grows_with_clock :
    (600 : ℚ) ≤ 720 ∧ ¬ magicFormula 333 720 4 ≤ magicFormula 333 600 4 := by
  have h1 : magicFormula 333 600 4 = 49 := by
    rw [magicFormula, show (333 : ℚ) / (1000 / 600 * 4) = 999 / 20 by norm_num,
      Int.floor_eq_iff]
    norm_num
  have h2 : magicFormula 333 720 4 = 59 := by
    rw [magicFormula, show (333 : ℚ) / (1000 / 720 * 4) = 2997 / 50 by norm_num,
      Int.floor_eq_iff]
    norm_num
  refine ⟨by norm_num, ?_⟩
  rw [h1, h2]
  omega

/-- Amended claim C8: for a fixed positive target duration and positive
cycles-per-loop, the computed loop count is monotonically non-DEcreasing
as the clock speed increases — a faster clock makes each loop iteration
shorter, so at least as many loops are needed for the same wall-clock
delay. -/
theorem magicFormula_mono (t k c₁ c₂ : ℚ) (ht : 0 < t) (hk : 0 < k) (h : c₁ ≤ c₂) :
    magicFormula t c₁ k ≤ magicFormula t c₂ k := by
  rw [magicFormula_eq_div, magicFormula_eq_div]
  apply Int.floor_le_floor
  have h2 : t * c₁ ≤ t * c₂ := mul_le_mul_of_nonneg_left h ht.le
  exact div_le_div_of_nonneg_right h2 (by positivity)

/-- Witness for `magicFormula_mono`: the documented 600 MHz and 720 MHz
points. -/
theorem magicFormula_mono_witness :
    magicFormula 333 600 4 ≤ magicFormula 333 720 4 :=
  magicFormula_mono 333 4 600 720 (by norm_num) (by norm_num) (by norm_num)

/-- Claim C9: for every input sequence, the latch phase of `write` is
exactly 20 consecutive delay units after the per-color section — a fixed
count independent of the colors written — and (for a working pin that
started low) the pin is already low throughout it. -/
theorem write_latch_twenty_units (f : Nat → Bool) (colors : List RGB8) (d : Ws2812)
    (hf : ∀ n, f n = true) (hd : d.pin.level = false) :
    (write f colors d).1
      = frameTrace d.magic_number colors ++ List.replicate 20 (Act.wait d.magic_number) ∧
    (writeAux f colors d).2.pin.level = false :=
  ⟨write_trace f colors d, writeAux_level f colors d hf hd⟩

/-- Witness for `write_latch_twenty_units`: one color, magic number 50. -/
theorem write_latch_twenty_units_witness :
    (write (fun _ => true) [{ r := 2, g := 3, b := 5 }]
        { pin := { level := false, ops := 0 }, magic_number := 50 }).1
      = frameTrace 50 [{ r := 2, g := 3, b := 5 }] ++ List.replicate 20 (Act.wait 50) ∧
    (writeAux (fun _ => true) [{ r := 2, g := 3, b := 5 }]
        { pin := { level := false, ops := 0 }, magic_number := 50 }).2.pin.level = false :=
  write_latch_twenty_units (fun _ => true) [{ r := 2, g := 3, b := 5 }]
    { pin := { level := false, ops := 0 }, magic_number := 50 } (fun _ => rfl) rfl

/-- Claim C10: `new` takes only the pin, initializes `magic_number` to the
default 50, and does nothing else besides forcing the pin low: a freshly
constructed driver always carries magic number 50. -/
theorem new_initializes_magic_fifty (f : Nat → Bool) (pin : PinState) :
    new f pin = { pin := setPin f false pin, magic_number := 50 } :=
  rfl
